import Mathlib

/-!
Verification of the core logic of an npm "agent skill" installer/uninstaller
(`src/utils.js` and `src/install-skill.js`, plus the uninstall script):
target resolution, install-location detection (upward project-root walk),
directory install/uninstall steps, and manifest bookkeeping.

Modelling conventions:
* An absolute filesystem path is modelled by its list of components
  (`Path := List String`); the filesystem root `/` is `[]`,
  `path.dirname` is `List.dropLast`, and `path.join base frag` appends the
  `/`-separated components of `frag`.
* The filesystem is modelled by two total boolean predicates
  (`existsSync`, `isDirectory`), mirroring the only filesystem queries the
  source performs before acting.
* Effects are modelled either as an emitted list of filesystem operations
  (install) or as an updated filesystem predicate (uninstall).
* The process environment is the single variable the scripts read
  (`npm_config_global`); the initial working directory (`CWD`, utils.js:5)
  and `os.homedir()` are explicit parameters captured once per run.
-/

namespace SkillInstall

/-- An absolute path, as its list of `/`-separated components; `[]` is `/`. -/
abbrev Path := List String

/-- Models JavaScript `s.split('/')` on the character list of `s`:
`""` gives `[""]`, separators at the ends give empty components. -/
def splitSlash : List Char → List String
  | [] => [""]
  | c :: cs =>
    match splitSlash cs with
    | [] => [String.mk [c]]
    | h :: t =>
      if c = '/' then "" :: h :: t
      else String.mk (c :: h.data) :: t

/-- JavaScript `s.split('/')`. -/
def jsSplitSlash (s : String) : List String :=
  splitSlash s.data

/-- JavaScript `s.startsWith('@')` (utils.js:35): does the string begin
with the given character. -/
def strStartsWith (s : String) (c : Char) : Bool :=
  match s.data with
  | [] => false
  | a :: _ => a == c

/-- `path.join base frag` for a relative fragment `frag`: append the
fragment's `/`-separated components (`path.join(b, '')` is `b`). -/
def pathJoin (p : Path) (s : String) : Path :=
  if s = "" then p else p ++ jsSplitSlash s

/-- Models the JavaScript expression `a || b` on an optional string field:
`undefined` and the empty string are falsy. -/
def jsOrDefault (o : Option String) (d : String) : String :=
  match o with
  | some s => if s = "" then d else s
  | none => d

/-- The filesystem as the source observes it: `fs.existsSync` and
`fs.statSync(..).isDirectory()` on component paths. -/
structure FS where
  existsSync : Path → Bool
  isDirectory : Path → Bool

/-- Remove a directory tree: `fs.rmSync(p, recursive: true, force: true)`.
Every path having `p` as a prefix stops existing; others are untouched. -/
def FS.rmTree (fs : FS) (p : Path) : FS :=
  { existsSync := fun q => if p <+: q then false else fs.existsSync q
    isDirectory := fun q => if p <+: q then false else fs.isDirectory q }

/-- The slice of `process.env` the scripts read. -/
structure Env where
  npm_config_global : Option String

/-- `TargetSpec.paths`: relative path fragments for the two scopes,
as component lists (e.g. `.claude/skills` is `[".claude", "skills"]`). -/
structure TargetPaths where
  global : Path
  project : Path
deriving DecidableEq

/-- One entry of `config.targets`. -/
structure TargetSpec where
  enabled : Bool
  paths : TargetPaths
deriving DecidableEq

/-- A resolved target, as produced by `getEnabledTargets`. -/
structure ResolvedTarget where
  name : String
  paths : TargetPaths
deriving DecidableEq

/-- The `.claude-skill.json` configuration (data model of the spec).
`targets` is `none` when the field is absent; when present it is the
association list of target names to specs, in declaration order.
(JavaScript `Object.entries` preserves declaration order for the
non-integer-like keys used as target names.)
`hooks` is the optional `hooks.postinstall` command. -/
structure Config where
  name : String
  version : String
  package : Option String
  targets : Option (List (String × TargetSpec))
  files : Option (List (String × String))
  hooks : Option String

/-- utils.js:10-29 `getEnabledTargets(config)`: with no `targets` field,
the single default claude-code target (both scopes `.claude/skills`);
otherwise the enabled entries in declaration order, mapped to
name/paths pairs. -/
def getEnabledTargets (config : Config) : List ResolvedTarget :=
  match config.targets with
  | none =>
    [{ name := "claude-code"
       paths := { global := [".claude", "skills"], project := [".claude", "skills"] } }]
  | some ts =>
    (ts.filter (fun nt => nt.2.enabled)).map (fun nt => { name := nt.1, paths := nt.2.paths })

/-- utils.js:34-38 `extractSkillName(packageName)`:
`packageName.startsWith('@') ? packageName.split('/')[1] || packageName : packageName`
(an absent or empty second component falls back to the full name). -/
def extractSkillName (packageName : String) : String :=
  if strStartsWith packageName '@' then
    match (jsSplitSlash packageName).get? 1 with
    | some s => if s = "" then packageName else s
    | none => packageName
  else packageName

/-- utils.js:61-62 / 74-75: is the candidate inside, or named,
`node_modules`?  For a component path this is exactly: some component
equals `node_modules` (`includes('/node_modules/')` matches a non-final
component, `basename == 'node_modules'` matches the final one). -/
def isInNodeModules (p : Path) : Bool :=
  p.any (fun c => c == "node_modules")

/-- The upward walk of utils.js:55-71 with explicit fuel.  One step moves
to `path.dirname`, i.e. drops the last component; the loop guard
`projectRoot !== path.dirname(projectRoot)` is `p ≠ []`.  Starting the
fuel at the component count makes the recursion structural; the walk
always stops at `[]` before the fuel runs out. -/
def findProjectRootAux (fs : FS) : Nat → Path → Path
  | 0, p => p
  | fuel + 1, p =>
    if p = [] then p
    else
      let hasPackageJson := fs.existsSync (p ++ ["package.json"])
      let hasGit := fs.existsSync (p ++ [".git"])
      if (hasPackageJson || hasGit) && !(isInNodeModules p) then p
      else findProjectRootAux fs fuel p.dropLast

/-- The project-root search of utils.js:52-71, starting from the captured
working directory. -/
def findProjectRoot (fs : FS) (start : Path) : Path :=
  findProjectRootAux fs start.length start

/-- utils.js: the returned `{ type, base }` record. -/
structure InstallLocation where
  type : String
  base : Path
deriving DecidableEq

/-- utils.js:43-88 `detectInstallLocation(targetPaths, isGlobal)`.
`homedir` is `os.homedir()` and `cwd` is the process-start `CWD`
(utils.js:5).  The second component of the result records whether the
`console.warn` fallback of lines 77-81 fired. -/
def detectInstallLocation (fs : FS) (homedir cwd : Path) (targetPaths : TargetPaths)
    (isGlobal : Bool) : InstallLocation × Bool :=
  if isGlobal then
    ({ type := "personal", base := homedir ++ targetPaths.global }, false)
  else
    let projectRoot := findProjectRoot fs cwd
    let finalIsInNodeModules := isInNodeModules projectRoot
    if finalIsInNodeModules then
      -- "If suitable project root not found, use current working directory (with warning)"
      ({ type := "project", base := cwd ++ targetPaths.project }, true)
    else
      ({ type := "project", base := projectRoot ++ targetPaths.project }, false)

/-! ## Install / uninstall steps -/

/-- One filesystem effect performed by the installer. -/
inductive FsOp where
  | rmDir (p : Path)
  | mkDir (p : Path)
  | copyFile (src dst : Path)
  | copyDirRec (src dst : Path)
  | writeManifest (p : Path)
  | runHook (cmd : String) (cwd2 : Path)
deriving DecidableEq

/-- install-skill.js:47-70, one entry of `config.files`:
a missing source is skipped with a warning; a directory source is
copied recursively; a file source first ensures `path.dirname(destPath)`
exists, then is copied. -/
def copyOneFile (fs : FS) (dirname targetDir : Path) (sd : String × String) : List FsOp :=
  let sourcePath := pathJoin dirname sd.1
  if fs.existsSync sourcePath then
    if fs.isDirectory sourcePath then
      [FsOp.copyDirRec sourcePath (pathJoin targetDir sd.2)]
    else
      let destPath := pathJoin targetDir sd.2
      (if fs.existsSync destPath.dropLast then [] else [FsOp.mkDir destPath.dropLast])
        ++ [FsOp.copyFile sourcePath destPath]
  else []

/-- The whole `config.files` loop, in declaration order.  Existence checks
are evaluated against the filesystem as it was at the start of the call;
the run itself only writes beneath the target directory, so the only
divergence is a repeated `mkdir` of an already-created destination
subdirectory, which `mkdirSync recursive` makes a no-op anyway. -/
def copyConfigFiles (fs : FS) (dirname targetDir : Path) :
    Option (List (String × String)) → List FsOp
  | none => []
  | some files => files.flatMap (copyOneFile fs dirname targetDir)

/-- install-skill.js:16-91, everything after the location is known.
`dirname` is the installer's `__dirname`, `base` is `location.base`.
Returns the emitted operations and `some targetDir` on success, or the
operations performed before the throw and `none` when the mandatory
`SKILL.md` is missing (the `rmSync`/`mkdirSync` of lines 27-36 have
already happened at that point). -/
def installSteps (fs : FS) (dirname base : Path) (config : Config) :
    List FsOp × Option Path :=
  let skillName := extractSkillName config.name
  let targetDir := pathJoin base skillName
  let altTargetDir := pathJoin base config.name
  -- lines 27-31: clean up the alternative (full package name) path format
  let rmOps :=
    if fs.existsSync altTargetDir ∧ altTargetDir ≠ targetDir
    then [FsOp.rmDir altTargetDir] else []
  -- lines 34-36: create the target directory
  let mkOps := if fs.existsSync targetDir then [] else [FsOp.mkDir targetDir]
  let skillMdSource := pathJoin dirname "SKILL.md"
  if fs.existsSync skillMdSource then
    let copyOps :=
      [FsOp.copyFile skillMdSource (pathJoin targetDir "SKILL.md")]
        ++ copyConfigFiles fs dirname targetDir config.files
    let manifestOps := [FsOp.writeManifest (pathJoin base ".skills-manifest.json")]
    let hookOps :=
      match config.hooks with
      | some cmd => [FsOp.runHook cmd targetDir]
      | none => []
    (rmOps ++ mkOps ++ copyOps ++ manifestOps ++ hookOps, some targetDir)
  else
    (rmOps ++ mkOps, none)

/-- install-skill.js:9-92 `installToTarget(target, config)`.
Line 13 calls `detectInstallLocation(target.paths)` with no second
argument, so `isGlobal` is `undefined`, which is falsy: the project
branch is always taken and `env` is never consulted. -/
def installToTarget (fs : FS) (env : Env) (dirname homedir cwd : Path)
    (target : ResolvedTarget) (config : Config) : List FsOp × Option Path :=
  let location := (detectInstallLocation fs homedir cwd target.paths false).1
  installSteps fs dirname location.base config

/-- Uninstall script lines 110-132 (directory removal part of
`uninstallFromTarget`), with the base directory already detected:
remove the stripped-name directory if present, then the full-package-name
directory if present and different; return the updated filesystem and
whether anything was removed. -/
def uninstallSteps (fs : FS) (base : Path) (config : Config) : FS × Bool :=
  let skillName := extractSkillName config.name
  let skillNameTargetDir := pathJoin base skillName
  let fullPackageNameTargetDir := pathJoin base config.name
  let step1 :=
    if fs.existsSync skillNameTargetDir
    then (fs.rmTree skillNameTargetDir, true) else (fs, false)
  let step2 :=
    if step1.1.existsSync fullPackageNameTargetDir
        ∧ fullPackageNameTargetDir ≠ skillNameTargetDir
    then (step1.1.rmTree fullPackageNameTargetDir, true) else (step1.1, false)
  (step2.1, step1.2 || step2.2)

/-- Uninstall script lines 103-156 `uninstallFromTarget(target, config)`:
line 106 reads `process.env.npm_config_global === 'true'` and passes it
to the location detector (unlike the installer). -/
def uninstallFromTarget (fs : FS) (env : Env) (homedir cwd : Path)
    (target : ResolvedTarget) (config : Config) : FS × Bool :=
  let isGlobal := env.npm_config_global == some "true"
  let location := (detectInstallLocation fs homedir cwd target.paths isGlobal).1
  uninstallSteps fs location.base config

/-! ## Manifest bookkeeping (structured model)

The manifest file content, for claims about well-formed manifests, is
modelled as the parsed record directly: `load` yields the stored value
(or the fresh default), `save` writes the value back, so a
load-then-save round trip is value equality.  JSON text round-tripping
itself is external (spec section 1). -/

/-- One manifest entry (install-skill.js:181-187). -/
structure SkillRecord where
  version : String
  installedAt : String
  package : String
  path : Path
  target : String
deriving DecidableEq

/-- A well-formed manifest: the `skills` mapping as an association list
in JSON key order. -/
structure Manifest where
  skills : List (String × SkillRecord)
deriving DecidableEq

/-- Lookup in an association list by key (JavaScript property read). -/
def lookupAssoc {β : Type} (l : List (String × β)) (k : String) : Option β :=
  (l.find? (fun kv => kv.1 == k)).map (fun kv => kv.2)

/-- JavaScript `obj[k] = v` on an object with entries `l`: an existing
key keeps its position and gets the new value, a new key is appended at
the end (JavaScript property insertion order). -/
def upsertAssoc {β : Type} : List (String × β) → String → β → List (String × β)
  | [], k, v => [(k, v)]
  | a :: t, k, v => if a.1 = k then (k, v) :: t else a :: upsertAssoc t k v

/-- install-skill.js:176-187: the in-memory update done by
`updateManifest` on a loaded manifest.  Lines 177-179 recompute the
stripped skill name with the same expression as `extractSkillName`;
line 184 is `config.package || config.name` (JavaScript `||`, so an
empty string also falls back); `now` stands for
`new Date().toISOString()`. -/
def updateManifest (manifest : Manifest) (config : Config) (skillsDir : Path)
    (targetName now : String) : Manifest :=
  let skillName := extractSkillName config.name
  { skills :=
      upsertAssoc manifest.skills config.name
        { version := config.version
          installedAt := now
          package := jsOrDefault config.package config.name
          path := pathJoin skillsDir skillName
          target := targetName } }

/-- install-skill.js:165-174: read the manifest file, falling back to a
fresh `manifest = skills: empty` when the file is absent or unparsable.
The argument is `none` for a missing file, `some (error ..)` for a file
whose `JSON.parse` throws, and `some (ok m)` for a well-formed file. -/
def loadManifest : Option (Except Unit Manifest) → Manifest
  | some (Except.ok m) => m
  | some (Except.error _) => { skills := [] }
  | none => { skills := [] }

/-- install-skill.js:163-190 `updateManifest(skillsDir, config, targetName)`
at file level: load (or default), upsert, and the value written back. -/
def updateManifestFile (file : Option (Except Unit Manifest)) (config : Config)
    (skillsDir : Path) (targetName now : String) : Manifest :=
  updateManifest (loadManifest file) config skillsDir targetName now

/-! ## Manifest bookkeeping (raw JSON model)

For claims about manifest files that parse as valid JSON of the wrong
shape, the stored value is modelled as a JSON tree, and the single
unguarded statement `manifest.skills[config.name] = record ..` of
install-skill.js:181 is modelled with JavaScript evaluation semantics
(these files are CommonJS modules, so non-strict mode applies). -/

/-- A JSON value. -/
inductive JVal where
  | jNull : JVal
  | jBool : Bool → JVal
  | jNum : Int → JVal
  | jStr : String → JVal
  | jArr : List JVal → JVal
  | jObj : List (String × JVal) → JVal

/-- JavaScript truthiness of a JSON value. -/
def jsTruthy : JVal → Bool
  | JVal.jNull => false
  | JVal.jBool b => b
  | JVal.jNum n => n != 0
  | JVal.jStr s => s != ""
  | JVal.jArr _ => true
  | JVal.jObj _ => true

/-- JavaScript `delete obj[k]` on an object's entry list (keys from
`JSON.parse` are unique). -/
def removeField (fields : List (String × JVal)) (k : String) :
    List (String × JVal) :=
  fields.filter (fun kv => kv.1 != k)

/-- `manifest.skills[key] = record` (install-skill.js:181) followed by
`JSON.stringify(manifest)` (line 189), on the parsed value `v`:
* `v` an object with an object-valued `skills`: the entry is upserted
  and the updated object is written;
* `v` an object whose `skills` is an array: the assignment adds a named
  property to the array object, which `JSON.stringify` then drops, so
  the written value is unchanged;
* `v` an object whose `skills` is a non-null primitive (string, number,
  boolean): in non-strict mode, assigning a property to a primitive
  wrapper is silently discarded — no error, value written unchanged;
* `v` an object whose `skills` is `null`, or `v` an object without
  `skills` (`undefined`): TypeError, "cannot set properties of
  null/undefined" — the statement throws;
* `v` not an object (array, string, number, boolean): `v.skills` is
  `undefined`, so indexing it throws; `v` `null`: reading `.skills`
  itself throws. -/
def setSkillsKey (v : JVal) (key : String) (record : JVal) : Except Unit JVal :=
  match v with
  | JVal.jObj fields =>
    match lookupAssoc fields "skills" with
    | some (JVal.jObj s) =>
      Except.ok (JVal.jObj (upsertAssoc fields "skills" (JVal.jObj (upsertAssoc s key record))))
    | some (JVal.jArr _) => Except.ok (JVal.jObj fields)
    | some (JVal.jStr _) => Except.ok (JVal.jObj fields)
    | some (JVal.jNum _) => Except.ok (JVal.jObj fields)
    | some (JVal.jBool _) => Except.ok (JVal.jObj fields)
    | some JVal.jNull => Except.error ()
    | none => Except.error ()
  | _ => Except.error ()

/-- An absolute component path rendered as the string stored in the
manifest's `path` field. -/
def pathToString (p : Path) : String :=
  String.intercalate "/" p

/-- The record of install-skill.js:181-187 as a JSON value. -/
def skillRecordJson (config : Config) (skillsDir : Path) (targetName now : String) : JVal :=
  JVal.jObj
    [("version", JVal.jStr config.version),
     ("installedAt", JVal.jStr now),
     ("package", JVal.jStr (jsOrDefault config.package config.name)),
     ("path", JVal.jStr (pathToString (pathJoin skillsDir (extractSkillName config.name)))),
     ("target", JVal.jStr targetName)]

/-- install-skill.js:163-190 `updateManifest` at the raw JSON level:
an absent file or a `JSON.parse` failure yields the fresh default
`skills: empty object` (lines 165-174); an existing parse result is then
subjected to the unguarded assignment of line 181. -/
def updateManifestJson (file : Option (Except Unit JVal)) (config : Config)
    (skillsDir : Path) (targetName now : String) : Except Unit JVal :=
  match file with
  | some (Except.ok v) =>
    setSkillsKey v config.name (skillRecordJson config skillsDir targetName now)
  | _ =>
    setSkillsKey (JVal.jObj [("skills", JVal.jObj [])]) config.name
      (skillRecordJson config skillsDir targetName now)

/-- Uninstall script lines 134-147: the guarded manifest update.  The
whole block is inside a `try`; `if (manifest.skills && manifest.skills[config.name])`
only writes when `skills` is truthy and indexing it gives a truthy value.
Returns `some` of the written value when a write happens and `none`
otherwise (no file, caught parse error, guard falsy, or the caught
TypeError of reading `.skills` on a `null` manifest) — the caller never
sees a failure. -/
def uninstallManifestUpdate (file : Option (Except Unit JVal)) (key : String) :
    Option JVal :=
  match file with
  | some (Except.ok (JVal.jObj fields)) =>
    match lookupAssoc fields "skills" with
    | some (JVal.jObj s) =>
      match lookupAssoc s key with
      | some w =>
        if jsTruthy w
        then some (JVal.jObj (upsertAssoc fields "skills" (JVal.jObj (removeField s key))))
        else none
      | none => none
    | _ => none
  | _ => none

/-! ## Helper lemmas -/

lemma lookupAssoc_cons {β : Type} (a : String × β) (t : List (String × β)) (k : String) :
    lookupAssoc (a :: t) k = if a.1 = k then some a.2 else lookupAssoc t k := by
  simp only [lookupAssoc, List.find?]
  by_cases h : a.1 = k
  · simp [h]
  · have h2 : (a.1 == k) = false := by simp [h]
    simp [h, h2]

lemma lookupAssoc_upsertAssoc_self {β : Type} (l : List (String × β)) (k : String) (v : β) :
    lookupAssoc (upsertAssoc l k v) k = some v := by
  induction l with
  | nil => simp [upsertAssoc, lookupAssoc_cons]
  | cons a t ih =>
    by_cases ha : a.1 = k <;> simp [upsertAssoc, lookupAssoc_cons, ha, ih]

lemma lookupAssoc_upsertAssoc_ne {β : Type} (l : List (String × β)) (k : String) (v : β)
    (q : String) (h : q ≠ k) :
    lookupAssoc (upsertAssoc l k v) q = lookupAssoc l q := by
  induction l with
  | nil => simp [upsertAssoc, lookupAssoc_cons, lookupAssoc, Ne.symm h]
  | cons a t ih =>
    by_cases ha : a.1 = k
    · simp [upsertAssoc, lookupAssoc_cons, ha, Ne.symm h]
    · by_cases hb : a.1 = q <;> simp [upsertAssoc, lookupAssoc_cons, ha, hb, h, ih]

/-- The upward walk can only stop at a candidate outside `node_modules`:
the break condition excludes such candidates and the filesystem root `[]`
has no components at all. -/
lemma isInNodeModules_findProjectRootAux (fs : FS) :
    ∀ (fuel : Nat) (p : Path), p.length ≤ fuel →
      isInNodeModules (findProjectRootAux fs fuel p) = false := by
  intro fuel
  induction fuel with
  | zero =>
    intro p hp
    have hp0 : p = [] := List.length_eq_zero.mp (Nat.le_zero.mp hp)
    subst hp0
    simp [findProjectRootAux, isInNodeModules]
  | succ n ih =>
    intro p hp
    simp only [findProjectRootAux]
    split_ifs with h0 hc
    · subst h0; simp [isInNodeModules]
    · simp only [Bool.and_eq_true, Bool.not_eq_true'] at hc
      exact hc.2
    · have hlen : p.dropLast.length ≤ n := by
        have := List.length_dropLast p
        omega
      exact ih p.dropLast hlen

lemma findProjectRoot_not_in_node_modules (fs : FS) (p : Path) :
    isInNodeModules (findProjectRoot fs p) = false :=
  isInNodeModules_findProjectRootAux fs p.length p (Nat.le_refl _)

/-- The post-walk fallback guard of utils.js:77-81 never fires. -/
lemma detect_never_warns (fs : FS) (homedir cwd : Path) (tp : TargetPaths) :
    (detectInstallLocation fs homedir cwd tp false).2 = false := by
  simp [detectInstallLocation, findProjectRoot_not_in_node_modules]

lemma rmDir_not_mem_copyOneFile (q : Path) (fs : FS) (dirname targetDir : Path)
    (sd : String × String) :
    FsOp.rmDir q ∉ copyOneFile fs dirname targetDir sd := by
  simp only [copyOneFile]
  split_ifs <;> simp

lemma rmDir_not_mem_copyConfigFiles (q : Path) (fs : FS) (dirname targetDir : Path)
    (o : Option (List (String × String))) :
    FsOp.rmDir q ∉ copyConfigFiles fs dirname targetDir o := by
  cases o with
  | none => simp [copyConfigFiles]
  | some files =>
    intro h
    simp only [copyConfigFiles] at h
    rcases List.mem_flatMap.mp h with ⟨sd, _, hmem⟩
    exact rmDir_not_mem_copyOneFile q fs dirname targetDir sd hmem

/-! ## Claim theorems -/

/-- Claim C9: for every configuration with no `targets` field at all, the
Target Resolver returns exactly one ResolvedTarget whose name is the fixed
default identifier `claude-code` and whose global and project paths are
both the same fixed hidden skills subdirectory `.claude/skills`. -/
theorem default_target_when_no_targets (name version : String) (pkg : Option String)
    (files : Option (List (String × String))) (hooks : Option String) :
    getEnabledTargets
        { name := name, version := version, package := pkg, targets := none
          files := files, hooks := hooks }
      = [{ name := "claude-code"
           paths := { global := [".claude", "skills"], project := [".claude", "skills"] } }] :=
  rfl

/-- Claim C4: for every configuration with a `targets` field, the Target
Resolver returns exactly the entries whose `enabled` is true, mapped to
name/paths pairs, in declaration order; an empty or all-disabled targets
map yields an empty list. -/
theorem getEnabledTargets_filters_enabled (name version : String) (pkg : Option String)
    (files : Option (List (String × String))) (hooks : Option String)
    (ts : List (String × TargetSpec)) :
    getEnabledTargets
        { name := name, version := version, package := pkg, targets := some ts
          files := files, hooks := hooks }
        = (ts.filter (fun nt => nt.2.enabled)).map
            (fun nt => { name := nt.1, paths := nt.2.paths })
      ∧ getEnabledTargets
          { name := name, version := version, package := pkg, targets := some []
            files := files, hooks := hooks } = []
      ∧ ((∀ nt ∈ ts, nt.2.enabled = false) →
          getEnabledTargets
            { name := name, version := version, package := pkg, targets := some ts
              files := files, hooks := hooks } = []) := by
  refine ⟨rfl, rfl, fun hall => ?_⟩
  have hfil : ts.filter (fun nt => nt.2.enabled) = [] := by
    induction ts with
    | nil => rfl
    | cons a t ih =>
      have ha := hall a (List.mem_cons_self a t)
      have ht : ∀ nt ∈ t, nt.2.enabled = false := fun nt hnt => hall nt (List.mem_cons_of_mem a hnt)
      simp [List.filter_cons, ha, ih ht]
  simp [getEnabledTargets, hfil]

/-- Witness for C4 at a concrete all-disabled configuration. -/
theorem getEnabledTargets_filters_enabled_witness :
    (∀ nt ∈ [("a", ({ enabled := false, paths := { global := ["g"], project := ["p"] } } : TargetSpec))],
        nt.2.enabled = false)
      ∧ getEnabledTargets
          { name := "n", version := "1", package := none
            targets := some [("a", { enabled := false, paths := { global := ["g"], project := ["p"] } })]
            files := none, hooks := none } = [] :=
  ⟨by decide,
   (getEnabledTargets_filters_enabled "n" "1" none none none
       [("a", { enabled := false, paths := { global := ["g"], project := ["p"] } })]).2.2
     (by decide)⟩

/-- Claim C8: for a base directory holding an already-valid manifest,
load-then-save leaves the content unchanged except for the single key
touched by the intervening upsert: every other key maps to exactly the
record it mapped to before. -/
theorem manifest_load_save_roundtrip (m : Manifest) (config : Config) (skillsDir : Path)
    (targetName now k : String) (hk : k ≠ config.name) :
    lookupAssoc (updateManifestFile (some (Except.ok m)) config skillsDir targetName now).skills k
      = lookupAssoc m.skills k := by
  simp only [updateManifestFile, loadManifest, updateManifest]
  exact lookupAssoc_upsertAssoc_ne _ _ _ _ hk

/-- Witness for C8 at a concrete manifest and untouched key. -/
theorem manifest_load_save_roundtrip_witness :
    ("other" : String) ≠ "pkg"
      ∧ lookupAssoc
          (updateManifestFile
            (some (Except.ok { skills := [("other", { version := "0.1", installedAt := "t0", package := "other", path := ["b", "other"], target := "tg" })] }))
            { name := "pkg", version := "1.0.0", package := none, targets := none
              files := none, hooks := none }
            ["b"] "tg" "t1").skills "other"
        = lookupAssoc
            (({ skills := [("other", { version := "0.1", installedAt := "t0", package := "other", path := ["b", "other"], target := "tg" })] } : Manifest)).skills
            "other" :=
  ⟨by decide,
   manifest_load_save_roundtrip
     { skills := [("other", { version := "0.1", installedAt := "t0", package := "other", path := ["b", "other"], target := "tg" })] }
     { name := "pkg", version := "1.0.0", package := none, targets := none
       files := none, hooks := none }
     ["b"] "tg" "t1" "other" (by decide)⟩

/-- Claim C7: per-target uninstall returns true exactly when at least one
of the two candidate directories (stripped name, full scoped name)
existed — in particular false, with no failure, when neither exists —
and afterwards neither directory exists any more.  The last conjunct
ties the per-base analysis to the actual `uninstallFromTarget` call. -/
theorem uninstall_removed_iff (fs : FS) (env : Env) (homedir cwd base : Path)
    (target : ResolvedTarget) (config : Config) :
    (uninstallSteps fs base config).2
        = (fs.existsSync (pathJoin base (extractSkillName config.name))
            || fs.existsSync (pathJoin base config.name))
      ∧ (uninstallSteps fs base config).1.existsSync
          (pathJoin base (extractSkillName config.name)) = false
      ∧ (uninstallSteps fs base config).1.existsSync (pathJoin base config.name) = false
      ∧ uninstallFromTarget fs env homedir cwd target config
          = uninstallSteps fs
              ((detectInstallLocation fs homedir cwd target.paths
                  (env.npm_config_global == some "true")).1).base config := by
  refine ⟨?_, ?_, ?_, rfl⟩ <;>
  · simp only [uninstallSteps, FS.rmTree]
    by_cases heq :
        pathJoin base config.name = pathJoin base (extractSkillName config.name)
    · rw [heq]
      by_cases h1 : fs.existsSync (pathJoin base (extractSkillName config.name)) = true
      · simp [h1, List.prefix_refl]
      · have h1f : fs.existsSync (pathJoin base (extractSkillName config.name)) = false := by
          cases hx : fs.existsSync (pathJoin base (extractSkillName config.name))
          · rfl
          · exact absurd hx h1
        simp [h1f]
    · by_cases h1 : fs.existsSync (pathJoin base (extractSkillName config.name)) = true
      · by_cases hpre :
            pathJoin base (extractSkillName config.name) <+: pathJoin base config.name
        · simp [h1, hpre, List.prefix_refl]
        · by_cases h2 : fs.existsSync (pathJoin base config.name) = true
          · simp [h1, hpre, h2, heq, List.prefix_refl, ite_self]
          · have h2f : fs.existsSync (pathJoin base config.name) = false := by
              cases hx : fs.existsSync (pathJoin base config.name)
              · rfl
              · exact absurd hx h2
            simp [h1, hpre, h2f, List.prefix_refl]
      · have h1f : fs.existsSync (pathJoin base (extractSkillName config.name)) = false := by
          cases hx : fs.existsSync (pathJoin base (extractSkillName config.name))
          · rfl
          · exact absurd hx h1
        by_cases h2 : fs.existsSync (pathJoin base config.name) = true
        · simp [h1f, h2, heq, List.prefix_refl]
        · have h2f : fs.existsSync (pathJoin base config.name) = false := by
            cases hx : fs.existsSync (pathJoin base config.name)
            · rfl
            · exact absurd hx h2
          simp [h1f, h2f]

/-- A filesystem whose only marker is the VCS directory at `/repo`. -/
def fsC2w : FS :=
  { existsSync := fun p => p == ["repo", ".git"], isDirectory := fun _ => false }

/-- A filesystem with the VCS marker at `/repo` and additionally a
package manifest marker at `/repo/sub`. -/
def fsC2x : FS :=
  { existsSync := fun p => p == ["repo", ".git"] || p == ["repo", "sub", "package.json"]
    isDirectory := fun _ => false }

/-- Claim C2 (amended): with a VCS marker at `/repo`, the walk starting at
`/repo/sub/node_modules/pkg` never chooses a candidate inside or named
`node_modules`, and — provided `/repo/sub` itself carries neither marker —
returns base `join(/repo, targetPaths.project)`. -/
theorem detect_walks_past_node_modules_to_repo (fs : FS) (homedir : Path) (tp : TargetPaths)
    (hgit : fs.existsSync ["repo", ".git"] = true)
    (hpj : fs.existsSync ["repo", "sub", "package.json"] = false)
    (hgit2 : fs.existsSync ["repo", "sub", ".git"] = false) :
    isInNodeModules (findProjectRoot fs ["repo", "sub", "node_modules", "pkg"]) = false
      ∧ (detectInstallLocation fs homedir ["repo", "sub", "node_modules", "pkg"] tp false).1.base
          = ["repo"] ++ tp.project := by
  have hroot : findProjectRoot fs ["repo", "sub", "node_modules", "pkg"] = ["repo"] := by
    simp [findProjectRoot, findProjectRootAux, isInNodeModules, hgit, hpj, hgit2]
  constructor
  · rw [hroot]; decide
  · simp [detectInstallLocation, hroot, isInNodeModules]

/-- Witness for C2 at the concrete single-marker tree. -/
theorem detect_walks_past_node_modules_to_repo_witness :
    (fsC2w.existsSync ["repo", ".git"] = true
      ∧ fsC2w.existsSync ["repo", "sub", "package.json"] = false
      ∧ fsC2w.existsSync ["repo", "sub", ".git"] = false)
      ∧ (detectInstallLocation fsC2w ["h"] ["repo", "sub", "node_modules", "pkg"]
          { global := ["g"], project := ["skills"] } false).1.base = ["repo"] ++ ["skills"] :=
  ⟨⟨by decide, by decide, by decide⟩,
   (detect_walks_past_node_modules_to_repo fsC2w ["h"]
      { global := ["g"], project := ["skills"] } (by decide) (by decide) (by decide)).2⟩

/-- Counterexample to C2 as stated: in a tree that also has a
`package.json` at `/repo/sub`, the walk (correctly skipping the
`node_modules` candidates) stops at `/repo/sub`, not `/repo`, so the
claimed base `join(/repo, project)` is not returned for every tree with a
VCS marker at `/repo`. -/
theorem detect_stops_below_repo_when_sub_marked :
    fsC2x.existsSync ["repo", ".git"] = true
      ∧ (detectInstallLocation fsC2x ["h"] ["repo", "sub", "node_modules", "pkg"]
          { global := ["g"], project := ["skills"] } false).1.base = ["repo", "sub", "skills"]
      ∧ (detectInstallLocation fsC2x ["h"] ["repo", "sub", "node_modules", "pkg"]
          { global := ["g"], project := ["skills"] } false).1.base ≠ ["repo"] ++ ["skills"] := by
  decide

/-- The concrete configuration whose `package` field is present but the
empty string. -/
def cfgC3 : Config :=
  { name := "pkgname", version := "1.0.0", package := some "", targets := none
    files := none, hooks := none }

/-- A scoped concrete configuration. -/
def cfgScoped : Config :=
  { name := "@scope/pkg", version := "2.0.0", package := some "realpkg", targets := none
    files := none, hooks := none }

/-- Claim C3 (amended): the manifest upsert keys the new record by the
full scoped `config.name`, leaves every other key untouched, and stores
`version`, `installedAt = now`, `path = join(skillsDir, strippedName)`,
`target`, and `package = config.package || config.name` — JavaScript
`||`, so an empty-string `package` also falls back to `config.name`
(the claim's `??` would keep the empty string).  The last two conjuncts
give the scoped-name behaviour: directory component `pkg`, key
`@scope/pkg`. -/
theorem updateManifest_sets_scoped_key (m : Manifest) (config : Config) (skillsDir : Path)
    (targetName now : String) :
    lookupAssoc (updateManifest m config skillsDir targetName now).skills config.name
        = some { version := config.version, installedAt := now
                 package := jsOrDefault config.package config.name
                 path := pathJoin skillsDir (extractSkillName config.name)
                 target := targetName }
      ∧ (∀ k, k ≠ config.name →
          lookupAssoc (updateManifest m config skillsDir targetName now).skills k
            = lookupAssoc m.skills k)
      ∧ extractSkillName "@scope/pkg" = "pkg"
      ∧ pathJoin skillsDir (extractSkillName "@scope/pkg") = skillsDir ++ ["pkg"] := by
  refine ⟨?_, fun k hk => ?_, by decide, ?_⟩
  · simp only [updateManifest]
    exact lookupAssoc_upsertAssoc_self _ _ _
  · simp only [updateManifest]
    exact lookupAssoc_upsertAssoc_ne _ _ _ _ hk
  · rw [show extractSkillName "@scope/pkg" = "pkg" from by decide]
    simp [pathJoin, show jsSplitSlash "pkg" = ["pkg"] from by decide]

/-- Witness for C3: untouched-key preservation at a concrete input. -/
theorem updateManifest_sets_scoped_key_witness :
    ("other" : String) ≠ "@scope/pkg"
      ∧ lookupAssoc (updateManifest { skills := [] } cfgScoped ["b"] "tg" "t1").skills "other"
          = lookupAssoc (({ skills := [] } : Manifest)).skills "other" :=
  ⟨by decide,
   (updateManifest_sets_scoped_key { skills := [] } cfgScoped ["b"] "tg" "t1").2.1 "other" (by decide)⟩

/-- Counterexample to C3 as stated: with `config.package` present but
equal to the empty string, the stored record's `package` is
`config.name` (JavaScript `||`), not the empty string that the claimed
`config.package ?? config.name` would produce. -/
theorem manifest_package_empty_string_ce :
    lookupAssoc (updateManifest { skills := [] } cfgC3 ["b"] "tg" "t1").skills "pkgname"
        = some { version := "1.0.0", installedAt := "t1", package := "pkgname"
                 path := ["b", "pkgname"], target := "tg" }
      ∧ lookupAssoc (updateManifest { skills := [] } cfgC3 ["b"] "tg" "t1").skills "pkgname"
        ≠ some { version := "1.0.0", installedAt := "t1", package := ""
                 path := ["b", "pkgname"], target := "tg" } := by
  decide

/-- Filesystem for the C5 scenario: project root `/w`, alternate legacy
directory `/w/sk/@s/p` present, skill directory `/w/sk/p` absent. -/
def fsC5 : FS :=
  { existsSync := fun p =>
      p == ["w", ".git"] || p == ["w", "sk", "@s", "p"] || p == ["d", "SKILL.md"]
    isDirectory := fun _ => false }

/-- Scoped configuration for the C5 scenario. -/
def cfgC5 : Config :=
  { name := "@s/p", version := "1.0.0", package := none, targets := none
    files := none, hooks := none }

/-- Target for the C5 scenario. -/
def tgtC5 : ResolvedTarget := { name := "t", paths := { global := ["g"], project := ["sk"] } }

/-- Environment with the global toggle unset. -/
def envNone : Env := { npm_config_global := none }

/-- Claim C5 (amended): during install the alternate legacy directory is
deleted exactly when it exists and differs from the skill directory —
the skill directory's own existence is not part of the condition — and
when it is deleted it is the very first emitted operation, before any
copying.  The last conjunct ties the per-base analysis to the actual
`installToTarget` call. -/
theorem alt_dir_removal_condition (fs : FS) (env : Env) (dn homedir cwd base : Path)
    (target : ResolvedTarget) (config : Config) :
    ((FsOp.rmDir (pathJoin base config.name) ∈ (installSteps fs dn base config).1)
        ↔ (fs.existsSync (pathJoin base config.name) = true
            ∧ pathJoin base config.name ≠ pathJoin base (extractSkillName config.name)))
      ∧ ((fs.existsSync (pathJoin base config.name) = true
            ∧ pathJoin base config.name ≠ pathJoin base (extractSkillName config.name)) →
          (installSteps fs dn base config).1.head?
            = some (FsOp.rmDir (pathJoin base config.name)))
      ∧ installToTarget fs env dn homedir cwd target config
          = installSteps fs dn ((detectInstallLocation fs homedir cwd target.paths false).1).base
              config := by
  by_cases hc :
      fs.existsSync (pathJoin base config.name) = true
        ∧ pathJoin base config.name ≠ pathJoin base (extractSkillName config.name)
  · obtain ⟨hc1, hc2⟩ := hc
    refine ⟨?_, fun _ => ?_, rfl⟩ <;>
    · simp only [installSteps]
      by_cases hmd : fs.existsSync (pathJoin dn "SKILL.md") = true <;>
        simp [hmd, hc1, hc2]
  · refine ⟨?_, fun hcc => absurd hcc hc, rfl⟩
    simp only [installSteps]
    rw [if_neg hc]
    constructor
    · intro hmem
      exfalso
      rcases hh : config.hooks with _ | cmd <;>
      · rw [hh] at hmem
        by_cases hmd : fs.existsSync (pathJoin dn "SKILL.md") = true <;>
          by_cases hmk : fs.existsSync (pathJoin base (extractSkillName config.name)) = true <;>
            simp [hmd, hmk, rmDir_not_mem_copyConfigFiles] at hmem
    · intro hcc
      exact absurd hcc hc

/-- Witness for C5: at the concrete scenario the alternate directory
exists and differs, and the removal is the first emitted operation. -/
theorem alt_dir_removal_condition_witness :
    (fsC5.existsSync (pathJoin ["w", "sk"] cfgC5.name) = true
      ∧ pathJoin ["w", "sk"] cfgC5.name ≠ pathJoin ["w", "sk"] (extractSkillName cfgC5.name))
      ∧ (installSteps fsC5 ["d"] ["w", "sk"] cfgC5).1.head?
          = some (FsOp.rmDir (pathJoin ["w", "sk"] cfgC5.name)) :=
  ⟨⟨by decide, by decide⟩,
   (alt_dir_removal_condition fsC5 envNone ["d"] ["h"] ["w"] ["w", "sk"] tgtC5 cfgC5).2.1
     ⟨by decide, by decide⟩⟩

/-- Counterexample to C5 as stated: the skill directory `/w/sk/p` does
not exist, yet the alternate `/w/sk/@s/p` is still deleted — deletion
does not require that "both" directories exist. -/
theorem alt_dir_removed_without_skill_dir :
    (FsOp.rmDir ["w", "sk", "@s", "p"]
        ∈ (installToTarget fsC5 envNone ["d"] ["h"] ["w"] tgtC5 cfgC5).1)
      ∧ fsC5.existsSync ["w", "sk", "p"] = false
      ∧ pathJoin ["w", "sk"] cfgC5.name = ["w", "sk", "@s", "p"]
      ∧ pathJoin ["w", "sk"] (extractSkillName cfgC5.name) = ["w", "sk", "p"]
      ∧ ((detectInstallLocation fsC5 ["h"] ["w"] tgtC5.paths false).1).base = ["w", "sk"] := by
  decide

/-- Filesystem for the C1 scenario: project root `/w` with the skill
installed both under the global base `/home/.g` and the project base
`/w/.p`. -/
def fsC1 : FS :=
  { existsSync := fun p =>
      p == ["w", ".git"] || p == ["home", ".g", "pkg"] || p == ["w", ".p", "pkg"]
        || p == ["d", "SKILL.md"]
    isDirectory := fun _ => false }

/-- Environment with the global-install toggle set. -/
def envTrue : Env := { npm_config_global := some "true" }

/-- Target for the C1 scenario. -/
def tgtC1 : ResolvedTarget := { name := "t", paths := { global := [".g"], project := [".p"] } }

/-- Unscoped configuration for the C1 scenario. -/
def cfgC1 : Config :=
  { name := "pkg", version := "1.0.0", package := none, targets := none
    files := none, hooks := none }

/-- Claim C1 (code bug): with the global toggle set to `"true"` for the
whole run, the installer still installs under the project root (it calls
the detector without the flag, install-skill.js:13), while the
uninstaller — which does read the toggle — removes the directory under
the user's home.  The two runs therefore disagree about scope even
though the environment toggle is available to both. -/
theorem installer_ignores_global_toggle :
    envTrue.npm_config_global = some "true"
      ∧ (installToTarget fsC1 envTrue ["d"] ["home"] ["w"] tgtC1 cfgC1).2
          = some ["w", ".p", "pkg"]
      ∧ (detectInstallLocation fsC1 ["home"] ["w"] tgtC1.paths true).1
          = { type := "personal", base := ["home", ".g"] }
      ∧ (uninstallFromTarget fsC1 envTrue ["home"] ["w"] tgtC1 cfgC1).1.existsSync
          ["home", ".g", "pkg"] = false
      ∧ (uninstallFromTarget fsC1 envTrue ["home"] ["w"] tgtC1 cfgC1).1.existsSync
          ["w", ".p", "pkg"] = true
      ∧ (["w", ".p", "pkg"] : Path) ≠ ["home", ".g", "pkg"] := by
  decide

/-- A filesystem with no marker files at all. -/
def fsEmpty : FS := { existsSync := fun _ => false, isDirectory := fun _ => false }

/-- Claim C6 (code bug): the post-walk fallback of utils.js:77-81 is
unreachable — the warning flag is false for every project-scope
detection — and on a markerless tree starting inside `node_modules` the
detector silently returns the root-joined base instead of warning and
falling back to the starting working directory as the claim (and the
code's own comment) describe. -/
theorem project_root_fallback_unreachable :
    (∀ (fs : FS) (homedir cwd : Path) (tp : TargetPaths),
        (detectInstallLocation fs homedir cwd tp false).2 = false)
      ∧ (detectInstallLocation fsEmpty ["h"] ["a", "node_modules", "b"]
          { global := ["g"], project := [".claude", "skills"] } false).1.base
          = [".claude", "skills"]
      ∧ (detectInstallLocation fsEmpty ["h"] ["a", "node_modules", "b"]
          { global := ["g"], project := [".claude", "skills"] } false).2 = false
      ∧ ([".claude", "skills"] : Path)
          ≠ ["a", "node_modules", "b"] ++ [".claude", "skills"] :=
  ⟨detect_never_warns, by decide, by decide, by decide⟩

/-- Unscoped configuration for the C10 scenario. -/
def cfgC10 : Config :=
  { name := "pkg", version := "1.0.0", package := none, targets := none
    files := none, hooks := none }

/-- Claim C10 (amended): a manifest file that parses as valid JSON whose
value is not an object, or is an object without a `skills` property, or
with `skills: null`, makes the install-side update throw; but an object
whose `skills` is a non-null primitive does NOT throw — the non-strict
assignment is silently discarded and the value is written back
unchanged — and the guarded uninstall side performs no write and never
fails. -/
theorem manifest_wrong_shape_behavior (fields : List (String × JVal)) (es : List JVal)
    (s str : String) (b : Bool) (n : Int) (config : Config) (skillsDir : Path)
    (targetName now : String) :
    (lookupAssoc fields "skills" = none →
        updateManifestJson (some (Except.ok (JVal.jObj fields))) config skillsDir targetName now
          = Except.error ())
      ∧ (lookupAssoc fields "skills" = some JVal.jNull →
        updateManifestJson (some (Except.ok (JVal.jObj fields))) config skillsDir targetName now
          = Except.error ())
      ∧ updateManifestJson (some (Except.ok (JVal.jArr es))) config skillsDir targetName now
          = Except.error ()
      ∧ updateManifestJson (some (Except.ok (JVal.jStr str))) config skillsDir targetName now
          = Except.error ()
      ∧ updateManifestJson (some (Except.ok (JVal.jNum n))) config skillsDir targetName now
          = Except.error ()
      ∧ updateManifestJson (some (Except.ok (JVal.jBool b))) config skillsDir targetName now
          = Except.error ()
      ∧ updateManifestJson (some (Except.ok JVal.jNull)) config skillsDir targetName now
          = Except.error ()
      ∧ (lookupAssoc fields "skills" = some (JVal.jStr s) →
        updateManifestJson (some (Except.ok (JVal.jObj fields))) config skillsDir targetName now
          = Except.ok (JVal.jObj fields))
      ∧ (lookupAssoc fields "skills" = some (JVal.jStr s) →
        uninstallManifestUpdate (some (Except.ok (JVal.jObj fields))) config.name = none) := by
  refine ⟨fun h => ?_, fun h => ?_, rfl, rfl, rfl, rfl, rfl, fun h => ?_, fun h => ?_⟩
  · simp only [updateManifestJson, setSkillsKey]
    rw [h]
  · simp only [updateManifestJson, setSkillsKey]
    rw [h]
  · simp only [updateManifestJson, setSkillsKey]
    rw [h]
  · simp only [uninstallManifestUpdate]
    rw [h]

/-- Witness for C10 at concrete manifests: missing `skills` throws,
string-valued `skills` is silently ignored by install and untouched by
uninstall. -/
theorem manifest_wrong_shape_behavior_witness :
    (lookupAssoc ([] : List (String × JVal)) "skills" = none
      ∧ updateManifestJson (some (Except.ok (JVal.jObj []))) cfgC10 ["b"] "tg" "t1"
          = Except.error ())
      ∧ (lookupAssoc [("skills", JVal.jStr "x")] "skills" = some (JVal.jStr "x")
      ∧ updateManifestJson (some (Except.ok (JVal.jObj [("skills", JVal.jStr "x")])))
          cfgC10 ["b"] "tg" "t1" = Except.ok (JVal.jObj [("skills", JVal.jStr "x")])
      ∧ uninstallManifestUpdate (some (Except.ok (JVal.jObj [("skills", JVal.jStr "x")])))
          cfgC10.name = none) :=
  ⟨⟨rfl, (manifest_wrong_shape_behavior [] [] "x" "s" true 0 cfgC10 ["b"] "tg" "t1").1 rfl⟩,
   rfl,
   (manifest_wrong_shape_behavior [("skills", JVal.jStr "x")] [] "x" "s" true 0 cfgC10
      ["b"] "tg" "t1").2.2.2.2.2.2.2.1 rfl,
   (manifest_wrong_shape_behavior [("skills", JVal.jStr "x")] [] "x" "s" true 0 cfgC10
      ["b"] "tg" "t1").2.2.2.2.2.2.2.2 rfl⟩

/-- Counterexample to C10 as stated: the manifest `skills: "x"` parses
as valid JSON and has no object-valued `skills`, yet the install-side
update does not throw — the assignment is silently discarded in
non-strict mode and the manifest is rewritten unchanged. -/
theorem manifest_string_skills_does_not_throw :
    updateManifestJson (some (Except.ok (JVal.jObj [("skills", JVal.jStr "x")])))
        cfgC10 ["b"] "tg" "t1" = Except.ok (JVal.jObj [("skills", JVal.jStr "x")])
      ∧ (updateManifestJson (some (Except.ok (JVal.jObj [("skills", JVal.jStr "x")])))
          cfgC10 ["b"] "tg" "t1").isOk = true :=
  ⟨rfl, rfl⟩

end SkillInstall
